import Mathlib

/-!
Shallow embedding of the quiz application's queue scheduler
(`src/App.tsx`, types from `src/unnamed/part_000`).

The React component keeps its session state in `useState` hooks; we model the
relevant hooks as fields of one record `AppModel`.  Handlers that call
`setProgress(prev => ...)` queue functional updates which React applies in
order, while local reads of `progress` inside the same handler see the
render-time snapshot; the embedding reproduces exactly that: updater
functions are composed onto the state, and every read in the handler body
uses the pre-call snapshot.
-/

namespace Prochaska

/-- `Question` record from the types module (`src/unnamed/part_000`). -/
structure Question where
  id : Nat
  chapter : String
  question : String
  answer : String
  deriving DecidableEq

/-- `EvaluationResult` record: verdict from the external evaluator.
The score is a JS number in 0..10, fractional allowed; embedded as `Rat`. -/
structure EvaluationResult where
  isCorrect : Bool
  score : Rat
  feedback : String
  deriving DecidableEq

/-- `Attempt` record: one submission with its verdict (timestamp in epoch millis). -/
structure Attempt where
  text : String
  timestamp : Nat
  result : EvaluationResult
  deriving DecidableEq

/-- `AppState` enum from the types module. -/
inductive AppState where
  | HOME
  | QUIZ
  | RESULT
  | FINISHED
  deriving DecidableEq

/-- `QuizProgress` record: cursor, counters and the id queue. -/
structure QuizProgress where
  currentIndex : Nat
  correctCount : Nat
  incorrectCount : Nat
  queue : List Nat
  deriving DecidableEq

/-- The error classification stored by `setApiError` in `src/App.tsx`. -/
inductive ApiError where
  | quota
  | keyMissing
  | general
  deriving DecidableEq

/-- The `useState` hooks of the `App` component that the scheduler logic
touches (`src/App.tsx` lines 9 to 24).  `hasApiKey` stands for the guard
value `process.env.API_KEY || customKey` being truthy; `history` is the
`Record<number, Attempt[]>` map, total with default empty list. -/
structure AppModel where
  appState : AppState
  progress : QuizProgress
  userAnswer : String
  isEvaluating : Bool
  lastResult : Option EvaluationResult
  history : Nat → List Attempt
  apiError : Option ApiError
  isKeySetupOpen : Bool
  hasApiKey : Bool

/-- Initial hook values (`src/App.tsx` lines 9 to 24): home screen, cursor 0,
zero counters, queue in bank order. -/
def initState (bank : List Question) (hasKey : Bool) : AppModel where
  appState := AppState.HOME
  progress := { currentIndex := 0, correctCount := 0, incorrectCount := 0,
                queue := bank.map Question.id }
  userAnswer := ""
  isEvaluating := false
  lastResult := none
  history := fun _ => []
  apiError := none
  isKeySetupOpen := false
  hasApiKey := hasKey

/-!
### The shuffle

`startQuiz` shuffles with `[...ids].sort(() => Math.random() - 0.5)`.
ECMAScript leaves the order produced by an inconsistent comparator
implementation defined, but any comparison sort only rearranges its input.
We embed the engine's sort as a comparison sort whose comparison outcomes
are drawn from an arbitrary boolean oracle (one bit per comparator call),
so every possible behaviour of the random comparator is covered by some
oracle value.
-/

/-- Insert `x` into `l`, deciding at each position with the next oracle bit
(`true` plays the role of the comparator returning a negative number).
Returns the remaining oracle and the resulting list. -/
def insertOracle (x : Nat) : List Bool → List Nat → List Bool × List Nat
  | o, [] => (o, [x])
  | o, y :: ys =>
    if o.headD false then (o.tail, x :: y :: ys)
    else
      let r := insertOracle x o.tail ys
      (r.1, y :: r.2)

/-- Comparison sort driven by an oracle of comparator outcomes. -/
def sortOracle : List Bool → List Nat → List Bool × List Nat
  | o, [] => (o, [])
  | o, x :: xs =>
    let r := sortOracle o xs
    insertOracle x r.1 r.2

/-- Model of `[...ids].sort(() => Math.random() - 0.5)`: the oracle carries
the signs the random comparator happened to return. -/
def sortRandom (o : List Bool) (l : List Nat) : List Nat :=
  (sortOracle o l).2

/-- `startQuiz` (`src/App.tsx` lines 103 to 114): if no API key is available
it opens the key-setup dialog and returns; otherwise it installs a shuffled
queue with cursor 0 and zero counters and shows the quiz screen. -/
def startQuiz (bank : List Question) (oracle : List Bool) (s : AppModel) : AppModel :=
  if !s.hasApiKey then { s with isKeySetupOpen := true }
  else
    { s with
      progress := { currentIndex := 0, correctCount := 0, incorrectCount := 0,
                    queue := sortRandom oracle (bank.map Question.id) }
      appState := AppState.QUIZ
      userAnswer := ""
      lastResult := none
      apiError := none }

/-- `QUESTIONS.find(q => q.id === progress.queue[progress.currentIndex])`
as read at the top of the handlers in `src/App.tsx`.  An out-of-bounds
cursor reads `undefined` and the find fails. -/
def currentQuestionOf (bank : List Question) (s : AppModel) : Option Question :=
  match s.progress.queue.get? s.progress.currentIndex with
  | none => none
  | some qid => bank.find? (fun q => q.id == qid)

/-- The `setProgress` updater inside the `shouldRepeat` branch of
`handleNext` (`src/App.tsx` lines 121 to 127): with
`targetIndex = prev.currentIndex + 4`, push the id at the end when
`targetIndex >= newQueue.length`, else `splice(targetIndex, 0, id)`. -/
def reinsertProgress (p : QuizProgress) (qid : Nat) : QuizProgress :=
  if p.currentIndex + 4 ≥ p.queue.length then { p with queue := p.queue ++ [qid] }
  else
    { p with queue := p.queue.take (p.currentIndex + 4) ++
                        qid :: p.queue.drop (p.currentIndex + 4) }

/-- The progress value after the (conditional) reinsertion update of
`handleNext` has been applied: the duplicate is inserted only when
`shouldRepeat` holds and the current id resolves to a bank question. -/
def repeatProgress (bank : List Question) (shouldRepeat : Bool) (s : AppModel) : QuizProgress :=
  match shouldRepeat, currentQuestionOf bank s with
  | true, some q => reinsertProgress s.progress q.id
  | _, _ => s.progress

/-- `handleNext` (`src/App.tsx` lines 116 to 139).  The reinsertion update is
queued first; the completion test `currentIndex >= queue.length - 1` then
reads the render-time `progress` snapshot, that is the queue length BEFORE
the reinsertion.  In the non-final branch the cursor increment is applied on
top of the reinsertion update.  Nat subtraction agrees with the JS test here
because `currentIndex >= -1` and `currentIndex >= 0` are both always true
for an empty queue. -/
def handleNext (bank : List Question) (shouldRepeat : Bool) (s : AppModel) : AppModel :=
  if s.progress.currentIndex ≥ s.progress.queue.length - 1 then
    { s with appState := AppState.FINISHED
             progress := repeatProgress bank shouldRepeat s }
  else
    { s with appState := AppState.QUIZ
             progress := { repeatProgress bank shouldRepeat s with
                           currentIndex := (repeatProgress bank shouldRepeat s).currentIndex + 1 }
             userAnswer := ""
             lastResult := none
             apiError := none }

/-- JavaScript `String.prototype.trim`: strip leading and trailing
whitespace (computed on the character list so that the kernel can
evaluate it). -/
def jsTrim (s : String) : List Char :=
  ((s.data.dropWhile Char.isWhitespace).reverse.dropWhile Char.isWhitespace).reverse

/-- Does `hay` start with `needle`. -/
def startsWithChars : List Char → List Char → Bool
  | _, [] => true
  | [], _ :: _ => false
  | a :: as, b :: bs => (a == b) && startsWithChars as bs

/-- JavaScript `String.prototype.includes`: does `needle` occur as a
contiguous substring of `hay`. -/
def containsChars (hay needle : List Char) : Bool :=
  startsWithChars hay needle ||
    match hay with
    | [] => false
    | _ :: t => containsChars t needle

/-- `msg.toLowerCase()` on the character list. -/
def lowerChars (msg : String) : List Char :=
  msg.data.map Char.toLower

/-- `handleApiError` (`src/App.tsx` lines 91 to 101): classify the lowercased
message; a key-class error also opens the key-setup dialog. -/
def handleApiError (msg : String) (s : AppModel) : AppModel :=
  if containsChars (lowerChars msg) "api_key".data ||
      containsChars (lowerChars msg) "key".data ||
      containsChars (lowerChars msg) "401".data ||
      containsChars (lowerChars msg) "403".data then
    { s with apiError := some ApiError.keyMissing, isKeySetupOpen := true }
  else if containsChars (lowerChars msg) "429".data ||
      containsChars (lowerChars msg) "quota".data then
    { s with apiError := some ApiError.quota }
  else
    { s with apiError := some ApiError.general }

/-- Resolution of the awaited `evaluateAnswer` call: either a verdict or a
rejection carrying the error message. -/
inductive EvalOutcome where
  | ok (result : EvaluationResult)
  | err (msg : String)

/-- Whether the guard `if (!userAnswer.trim() || !currentQuestion) return;`
at the top of `handleSubmit` lets the evaluator call happen
(`!str` is true exactly for the empty string). -/
def submitFires (bank : List Question) (s : AppModel) : Bool :=
  !(jsTrim s.userAnswer == []) && (currentQuestionOf bank s).isSome

/-- `handleSubmit` (`src/App.tsx` lines 141 to 163) with the awaited
evaluator call resolved to `outcome` at time `now`.  The guard returns
before any state change.  Otherwise `isEvaluating` is set and cleared again
in the `finally` block and `apiError` is cleared; on success the attempt is
appended to the history of the current question id, the result screen is
shown and one counter is bumped; on rejection `handleApiError` classifies
the message. -/
def handleSubmit (bank : List Question) (outcome : EvalOutcome) (now : Nat)
    (s : AppModel) : AppModel :=
  match currentQuestionOf bank s with
  | none => s
  | some q =>
    if jsTrim s.userAnswer = [] then s
    else
      match outcome with
      | EvalOutcome.ok r =>
        { s with
          appState := AppState.RESULT
          isEvaluating := false
          apiError := none
          lastResult := some r
          history := fun i =>
            if i = q.id then s.history q.id ++ [⟨s.userAnswer, now, r⟩] else s.history i
          progress :=
            if r.isCorrect then
              { s.progress with correctCount := s.progress.correctCount + 1 }
            else
              { s.progress with incorrectCount := s.progress.incorrectCount + 1 } }
      | EvalOutcome.err msg =>
        handleApiError msg { s with isEvaluating := false, apiError := none }

/-- User-driven events that mutate the modelled state: starting a session,
advancing (with or without repeat), a resolved or rejected submission, and
editing the answer text. -/
inductive Event where
  | start (oracle : List Bool)
  | next (shouldRepeat : Bool)
  | submit (outcome : EvalOutcome) (now : Nat)
  | typeAnswer (text : String)

/-- One event applied to the state. -/
def step (bank : List Question) : Event → AppModel → AppModel
  | Event.start o, s => startQuiz bank o s
  | Event.next b, s => handleNext bank b s
  | Event.submit o now, s => handleSubmit bank o now s
  | Event.typeAnswer t, s => { s with userAnswer := t }

/-- States reachable from the initial hook values by any event sequence. -/
inductive Reachable (bank : List Question) (hasKey : Bool) : AppModel → Prop where
  | init : Reachable bank hasKey (initState bank hasKey)
  | tail (e : Event) (s : AppModel) :
      Reachable bank hasKey s → Reachable bank hasKey (step bank e s)

/-- A trace of events folded over the state. -/
def runEvents (bank : List Question) (es : List Event) (s : AppModel) : AppModel :=
  es.foldl (fun t e => step bank e t) s

/-- Weight 1 exactly when the event is a submission that passes the guard,
resolves successfully, and whose verdict equals `b`. -/
def outcomeWeight (bank : List Question) (b : Bool) (e : Event) (s : AppModel) : Nat :=
  match e with
  | Event.submit (EvalOutcome.ok r) _ => if submitFires bank s && (r.isCorrect == b) then 1 else 0
  | _ => 0

/-- Number of effective recorded outcomes with verdict `b` along a trace. -/
def countOutcomes (bank : List Question) (b : Bool) : List Event → AppModel → Nat
  | [], _ => 0
  | e :: es, s => outcomeWeight bank b e s + countOutcomes bank b es (step bank e s)

/-- Whether an event is a session (re)start. -/
def isStartEvent : Event → Bool
  | Event.start _ => true
  | _ => false

/-- Iterated `handleNext(false)` calls: `advanceN bank k s` is the state
after `k` plain advances. -/
def advanceN (bank : List Question) (k : Nat) (s : AppModel) : AppModel :=
  (handleNext bank false)^[k] s

/-! ### Helper lemmas -/

theorem insertOracle_perm (x : Nat) (o : List Bool) (l : List Nat) :
    (insertOracle x o l).2.Perm (x :: l) := by
  induction l generalizing o with
  | nil => simp [insertOracle]
  | cons y ys ih =>
    rw [insertOracle]
    split
    · exact List.Perm.refl _
    · exact ((ih o.tail).cons y).trans (List.Perm.swap x y ys)

theorem sortOracle_perm (o : List Bool) (l : List Nat) :
    (sortOracle o l).2.Perm l := by
  induction l generalizing o with
  | nil => simp [sortOracle]
  | cons x xs ih =>
    rw [sortOracle]
    exact (insertOracle_perm x _ _).trans ((ih o).cons x)

theorem sortRandom_perm (o : List Bool) (l : List Nat) :
    (sortRandom o l).Perm l :=
  sortOracle_perm o l

theorem reinsertProgress_currentIndex (p : QuizProgress) (qid : Nat) :
    (reinsertProgress p qid).currentIndex = p.currentIndex := by
  unfold reinsertProgress
  split <;> rfl

theorem reinsertProgress_correctCount (p : QuizProgress) (qid : Nat) :
    (reinsertProgress p qid).correctCount = p.correctCount := by
  unfold reinsertProgress
  split <;> rfl

theorem reinsertProgress_incorrectCount (p : QuizProgress) (qid : Nat) :
    (reinsertProgress p qid).incorrectCount = p.incorrectCount := by
  unfold reinsertProgress
  split <;> rfl

theorem reinsertProgress_length (p : QuizProgress) (qid : Nat) :
    (reinsertProgress p qid).queue.length = p.queue.length + 1 := by
  unfold reinsertProgress
  split
  · simp
  · simp only [List.length_append, List.length_cons, List.length_take, List.length_drop]
    omega

theorem reinsertProgress_sublist (p : QuizProgress) (qid : Nat) :
    p.queue.Sublist (reinsertProgress p qid).queue := by
  unfold reinsertProgress
  split
  · exact List.sublist_append_left _ _
  · conv_lhs => rw [← List.take_append_drop (p.currentIndex + 4) p.queue]
    exact List.Sublist.append_left (List.sublist_cons_self _ _) _

theorem reinsertProgress_mem (p : QuizProgress) (qid a : Nat)
    (h : a ∈ (reinsertProgress p qid).queue) : a = qid ∨ a ∈ p.queue := by
  unfold reinsertProgress at h
  split at h
  · simp only [List.mem_append, List.mem_singleton] at h
    tauto
  · simp only [List.mem_append, List.mem_cons] at h
    rcases h with h | h | h
    · exact Or.inr (List.take_subset _ _ h)
    · exact Or.inl h
    · exact Or.inr (List.drop_subset _ _ h)

theorem currentQuestionOf_mem_bank (bank : List Question) (s : AppModel) (q : Question)
    (h : currentQuestionOf bank s = some q) : q ∈ bank := by
  unfold currentQuestionOf at h
  split at h
  · exact absurd h (by simp)
  · exact List.mem_of_find?_eq_some h

theorem repeatProgress_currentIndex (bank : List Question) (b : Bool) (s : AppModel) :
    (repeatProgress bank b s).currentIndex = s.progress.currentIndex := by
  unfold repeatProgress
  split
  · exact reinsertProgress_currentIndex _ _
  · rfl

theorem repeatProgress_correctCount (bank : List Question) (b : Bool) (s : AppModel) :
    (repeatProgress bank b s).correctCount = s.progress.correctCount := by
  unfold repeatProgress
  split
  · exact reinsertProgress_correctCount _ _
  · rfl

theorem repeatProgress_incorrectCount (bank : List Question) (b : Bool) (s : AppModel) :
    (repeatProgress bank b s).incorrectCount = s.progress.incorrectCount := by
  unfold repeatProgress
  split
  · exact reinsertProgress_incorrectCount _ _
  · rfl

theorem repeatProgress_sublist (bank : List Question) (b : Bool) (s : AppModel) :
    s.progress.queue.Sublist (repeatProgress bank b s).queue := by
  unfold repeatProgress
  split
  · exact reinsertProgress_sublist _ _
  · exact List.Sublist.refl _

theorem repeatProgress_length_le (bank : List Question) (b : Bool) (s : AppModel) :
    s.progress.queue.length ≤ (repeatProgress bank b s).queue.length :=
  (repeatProgress_sublist bank b s).length_le

theorem repeatProgress_mem (bank : List Question) (b : Bool) (s : AppModel) (a : Nat)
    (h : a ∈ (repeatProgress bank b s).queue) :
    a ∈ s.progress.queue ∨ ∃ q, q ∈ bank ∧ a = q.id := by
  unfold repeatProgress at h
  split at h
  · rename_i q heq
    rcases reinsertProgress_mem _ _ _ h with h | h
    · exact Or.inr ⟨q, currentQuestionOf_mem_bank bank s q heq, h⟩
    · exact Or.inl h
  · exact Or.inl h

theorem handleNext_correctCount (bank : List Question) (b : Bool) (s : AppModel) :
    (handleNext bank b s).progress.correctCount = s.progress.correctCount := by
  unfold handleNext
  split <;> exact repeatProgress_correctCount bank b s

theorem handleNext_incorrectCount (bank : List Question) (b : Bool) (s : AppModel) :
    (handleNext bank b s).progress.incorrectCount = s.progress.incorrectCount := by
  unfold handleNext
  split <;> exact repeatProgress_incorrectCount bank b s

theorem handleNext_sublist (bank : List Question) (b : Bool) (s : AppModel) :
    s.progress.queue.Sublist (handleNext bank b s).progress.queue := by
  unfold handleNext
  split <;> exact repeatProgress_sublist bank b s

theorem handleApiError_frame (msg : String) (s : AppModel) :
    (handleApiError msg s).progress = s.progress ∧
    (handleApiError msg s).history = s.history ∧
    (handleApiError msg s).appState = s.appState ∧
    (handleApiError msg s).lastResult = s.lastResult ∧
    (handleApiError msg s).userAnswer = s.userAnswer ∧
    (handleApiError msg s).isEvaluating = s.isEvaluating := by
  unfold handleApiError
  split
  · exact ⟨rfl, rfl, rfl, rfl, rfl, rfl⟩
  · split
    · exact ⟨rfl, rfl, rfl, rfl, rfl, rfl⟩
    · exact ⟨rfl, rfl, rfl, rfl, rfl, rfl⟩

theorem handleSubmit_err_frame (bank : List Question) (msg : String) (now : Nat) (s : AppModel) :
    (handleSubmit bank (EvalOutcome.err msg) now s).progress = s.progress ∧
    (handleSubmit bank (EvalOutcome.err msg) now s).history = s.history ∧
    (handleSubmit bank (EvalOutcome.err msg) now s).appState = s.appState ∧
    (handleSubmit bank (EvalOutcome.err msg) now s).lastResult = s.lastResult ∧
    (handleSubmit bank (EvalOutcome.err msg) now s).userAnswer = s.userAnswer := by
  unfold handleSubmit
  split
  · exact ⟨rfl, rfl, rfl, rfl, rfl⟩
  · split
    · exact ⟨rfl, rfl, rfl, rfl, rfl⟩
    · have h := handleApiError_frame msg { s with isEvaluating := false, apiError := none }
      exact ⟨h.1, h.2.1, h.2.2.1, h.2.2.2.1, h.2.2.2.2.1⟩

theorem handleSubmit_queue (bank : List Question) (o : EvalOutcome) (now : Nat) (s : AppModel) :
    (handleSubmit bank o now s).progress.queue = s.progress.queue := by
  unfold handleSubmit
  split
  · rfl
  · split
    · rfl
    · match o with
      | EvalOutcome.ok r =>
        simp only
        split <;> rfl
      | EvalOutcome.err m =>
        rw [(handleApiError_frame m _).1]

theorem handleSubmit_currentIndex (bank : List Question) (o : EvalOutcome) (now : Nat)
    (s : AppModel) :
    (handleSubmit bank o now s).progress.currentIndex = s.progress.currentIndex := by
  unfold handleSubmit
  split
  · rfl
  · split
    · rfl
    · match o with
      | EvalOutcome.ok r =>
        simp only
        split <;> rfl
      | EvalOutcome.err m =>
        rw [(handleApiError_frame m _).1]

theorem handleSubmit_ok_correctCount (bank : List Question) (r : EvaluationResult) (now : Nat)
    (s : AppModel) :
    (handleSubmit bank (EvalOutcome.ok r) now s).progress.correctCount =
      s.progress.correctCount + (if submitFires bank s && r.isCorrect then 1 else 0) := by
  unfold handleSubmit submitFires
  cases hcq : currentQuestionOf bank s with
  | none => simp [hcq]
  | some q =>
    simp only [hcq, Option.isSome_some, Bool.and_true]
    by_cases ht : jsTrim s.userAnswer = []
    · simp [ht]
    · simp only [if_neg ht]
      have hb : (jsTrim s.userAnswer == []) = false := by
        simpa using ht
      cases hr : r.isCorrect <;> simp [hb, hr]

theorem handleSubmit_ok_incorrectCount (bank : List Question) (r : EvaluationResult) (now : Nat)
    (s : AppModel) :
    (handleSubmit bank (EvalOutcome.ok r) now s).progress.incorrectCount =
      s.progress.incorrectCount + (if submitFires bank s && !r.isCorrect then 1 else 0) := by
  unfold handleSubmit submitFires
  cases hcq : currentQuestionOf bank s with
  | none => simp [hcq]
  | some q =>
    simp only [hcq, Option.isSome_some, Bool.and_true]
    by_cases ht : jsTrim s.userAnswer = []
    · simp [ht]
    · simp only [if_neg ht]
      have hb : (jsTrim s.userAnswer == []) = false := by
        simpa using ht
      cases hr : r.isCorrect <;> simp [hb, hr]

theorem step_correctCount (bank : List Question) (e : Event) (s : AppModel)
    (he : isStartEvent e = false) :
    (step bank e s).progress.correctCount =
      s.progress.correctCount + outcomeWeight bank true e s := by
  cases e with
  | start o => simp [isStartEvent] at he
  | next b => simp [step, outcomeWeight, handleNext_correctCount]
  | submit o now =>
    cases o with
    | ok r => simp [step, outcomeWeight, handleSubmit_ok_correctCount]
    | err m =>
      have h := (handleSubmit_err_frame bank m now s).1
      simp [step, outcomeWeight, h]
  | typeAnswer t => simp [step, outcomeWeight]

theorem step_incorrectCount (bank : List Question) (e : Event) (s : AppModel)
    (he : isStartEvent e = false) :
    (step bank e s).progress.incorrectCount =
      s.progress.incorrectCount + outcomeWeight bank false e s := by
  cases e with
  | start o => simp [isStartEvent] at he
  | next b => simp [step, outcomeWeight, handleNext_incorrectCount]
  | submit o now =>
    cases o with
    | ok r =>
      have h := handleSubmit_ok_incorrectCount bank r now s
      simp only [step, outcomeWeight, h]
      cases hr : r.isCorrect <;> simp [hr]
    | err m =>
      have h := (handleSubmit_err_frame bank m now s).1
      simp [step, outcomeWeight, h]
  | typeAnswer t => simp [step, outcomeWeight]

theorem runEvents_correctCount (bank : List Question) (es : List Event) :
    ∀ s : AppModel, (∀ e ∈ es, isStartEvent e = false) →
      (runEvents bank es s).progress.correctCount =
        s.progress.correctCount + countOutcomes bank true es s := by
  induction es with
  | nil => intro s _; simp [runEvents, countOutcomes]
  | cons e es ih =>
    intro s h
    have he := h e (List.mem_cons_self _ _)
    have hrest : ∀ x ∈ es, isStartEvent x = false := fun x hx => h x (List.mem_cons_of_mem _ hx)
    have hstep : runEvents bank (e :: es) s = runEvents bank es (step bank e s) := rfl
    rw [hstep, ih _ hrest, step_correctCount bank e s he, countOutcomes]
    omega

theorem runEvents_incorrectCount (bank : List Question) (es : List Event) :
    ∀ s : AppModel, (∀ e ∈ es, isStartEvent e = false) →
      (runEvents bank es s).progress.incorrectCount =
        s.progress.incorrectCount + countOutcomes bank false es s := by
  induction es with
  | nil => intro s _; simp [runEvents, countOutcomes]
  | cons e es ih =>
    intro s h
    have he := h e (List.mem_cons_self _ _)
    have hrest : ∀ x ∈ es, isStartEvent x = false := fun x hx => h x (List.mem_cons_of_mem _ hx)
    have hstep : runEvents bank (e :: es) s = runEvents bank es (step bank e s) := rfl
    rw [hstep, ih _ hrest, step_incorrectCount bank e s he, countOutcomes]
    omega

/-! ### Reachability invariants -/

theorem startQuiz_queue_perm (bank : List Question) (oracle : List Bool) (s : AppModel)
    (hkey : s.hasApiKey = true) :
    (startQuiz bank oracle s).progress.queue.Perm (bank.map Question.id) := by
  unfold startQuiz
  rw [hkey]
  exact sortRandom_perm oracle (bank.map Question.id)

theorem reachable_cursor_lt (bank : List Question) (key : Bool) (s : AppModel)
    (hbank : bank ≠ []) (hs : Reachable bank key s) :
    s.progress.currentIndex < s.progress.queue.length ∧
      bank.length ≤ s.progress.queue.length := by
  induction hs with
  | init =>
    constructor
    · simpa [initState] using List.length_pos.mpr hbank
    · simp [initState]
  | tail e t _ ih =>
    cases e with
    | start o =>
      simp only [step]
      unfold startQuiz
      by_cases hk : t.hasApiKey = true
      · have hlen : (sortRandom o (bank.map Question.id)).length = bank.length := by
          rw [(sortRandom_perm o _).length_eq, List.length_map]
        rw [hk]
        show 0 < (sortRandom o (bank.map Question.id)).length ∧
          bank.length ≤ (sortRandom o (bank.map Question.id)).length
        rw [hlen]
        exact ⟨List.length_pos.mpr hbank, le_refl _⟩
      · have hk2 : t.hasApiKey = false := by simpa using hk
        rw [hk2]
        show t.progress.currentIndex < t.progress.queue.length ∧
          bank.length ≤ t.progress.queue.length
        exact ih
    | next b =>
      have hci := repeatProgress_currentIndex bank b t
      have hlen := repeatProgress_length_le bank b t
      simp only [step]
      unfold handleNext
      split
      · rename_i hge
        show (repeatProgress bank b t).currentIndex < (repeatProgress bank b t).queue.length ∧
          bank.length ≤ (repeatProgress bank b t).queue.length
        obtain ⟨ih1, ih2⟩ := ih
        omega
      · rename_i hlt
        show (repeatProgress bank b t).currentIndex + 1 < (repeatProgress bank b t).queue.length ∧
          bank.length ≤ (repeatProgress bank b t).queue.length
        obtain ⟨ih1, ih2⟩ := ih
        omega
    | submit o now =>
      have hq := handleSubmit_queue bank o now t
      have hc := handleSubmit_currentIndex bank o now t
      simp only [step]
      rw [hq, hc]
      exact ih
    | typeAnswer tx => exact ih

theorem reachable_queue_ids (bank : List Question) (key : Bool) (s : AppModel)
    (hs : Reachable bank key s) :
    ∀ a ∈ s.progress.queue, a ∈ bank.map Question.id := by
  induction hs with
  | init => simp [initState]
  | tail e t _ ih =>
    cases e with
    | start o =>
      intro a ha
      simp only [step] at ha
      unfold startQuiz at ha
      by_cases hk : t.hasApiKey = true
      · rw [hk] at ha
        have ha2 : a ∈ sortRandom o (bank.map Question.id) := ha
        exact ((sortRandom_perm o _).mem_iff).mp ha2
      · have hk2 : t.hasApiKey = false := by simpa using hk
        rw [hk2] at ha
        exact ih a ha
    | next b =>
      intro a ha
      simp only [step] at ha
      have hmem : a ∈ (repeatProgress bank b t).queue := by
        unfold handleNext at ha
        split at ha <;> exact ha
      rcases repeatProgress_mem bank b t a hmem with h | ⟨q, hq, rfl⟩
      · exact ih a h
      · exact List.mem_map.mpr ⟨q, hq, rfl⟩
    | submit o now =>
      intro a ha
      simp only [step] at ha
      rw [handleSubmit_queue] at ha
      exact ih a ha
    | typeAnswer tx => exact ih

theorem advanceN_within (bank : List Question) (s : AppModel) (L : Nat)
    (hL : s.progress.queue.length = L)
    (h0 : s.progress.currentIndex = 0)
    (hQ : s.appState = AppState.QUIZ) :
    ∀ k, k ≤ L - 1 →
      (advanceN bank k s).progress.currentIndex = k ∧
      (advanceN bank k s).progress.queue = s.progress.queue ∧
      (advanceN bank k s).appState = AppState.QUIZ := by
  intro k
  induction k with
  | zero => exact fun _ => ⟨h0, rfl, hQ⟩
  | succ k ih =>
    intro hk
    obtain ⟨h1, h2, h3⟩ := ih (Nat.le_of_succ_le hk)
    have hstep : advanceN bank (k + 1) s = handleNext bank false (advanceN bank k s) := by
      unfold advanceN
      rw [Function.iterate_succ_apply']
    rw [hstep]
    have hcond : ¬ ((advanceN bank k s).progress.currentIndex ≥
        (advanceN bank k s).progress.queue.length - 1) := by
      rw [h1, h2, hL]
      omega
    unfold handleNext
    rw [if_neg hcond]
    refine ⟨?_, ?_, rfl⟩
    · show (repeatProgress bank false (advanceN bank k s)).currentIndex + 1 = k + 1
      rw [repeatProgress_currentIndex, h1]
    · show (repeatProgress bank false (advanceN bank k s)).queue = s.progress.queue
      exact h2

/-! ### Concrete fixtures for witnesses and counterexamples -/

/-- A concrete three-question bank. -/
def sampleBank : List Question :=
  [⟨1, "ch1", "q1", "a1"⟩, ⟨2, "ch2", "q2", "a2"⟩, ⟨3, "ch3", "q3", "a3"⟩]

/-- A concrete in-session state over `queue` at cursor `ci` with answer
text `ans` (API key available, dialogs closed, zero counters). -/
def sampleState (queue : List Nat) (ci : Nat) (ans : String) : AppModel where
  appState := AppState.QUIZ
  progress := { currentIndex := ci, correctCount := 0, incorrectCount := 0, queue := queue }
  userAnswer := ans
  isEvaluating := false
  lastResult := none
  history := fun _ => []
  apiError := none
  isKeySetupOpen := false
  hasApiKey := true

/-- A concrete successful verdict. -/
def sampleResult : EvaluationResult := ⟨true, 10, "well done"⟩

/-! ### Claim theorems -/

/-- C1 (counterexample): with queue `[1,2,3]` and cursor 2 (the last index),
calling `handleNext true` does append the duplicate (queue becomes
`[1,2,3,3]`, length 4) but the session still transitions to `FINISHED`,
contradicting the claim that completion is NOT signaled for this call. -/
theorem advance_repeat_at_last_remains_in_session_cex :
    (handleNext sampleBank true (sampleState [1, 2, 3] 2 "x")).appState = AppState.FINISHED ∧
    (handleNext sampleBank true (sampleState [1, 2, 3] 2 "x")).progress.queue = [1, 2, 3, 3] := by
  decide

/-- C1 (amended): in an in-session state with the cursor at the last queue
position, `advance(true)` appends one duplicate of the current question id
(the target index `cursor + 4` is never in bounds there), making the
post-reinsertion length the old length plus 1, but completion IS signaled
for this call: the completion check reads the queue length from before the
reinsertion, so the state transitions to `FINISHED` with the cursor
unchanged and the appended duplicate is never visited. -/
theorem advance_repeat_at_last_signals_completion (bank : List Question) (s : AppModel)
    (q : Question)
    (hci : s.progress.currentIndex = s.progress.queue.length - 1)
    (hq : currentQuestionOf bank s = some q) :
    (handleNext bank true s).progress.queue = s.progress.queue ++ [q.id] ∧
    (handleNext bank true s).progress.queue.length = s.progress.queue.length + 1 ∧
    (handleNext bank true s).appState = AppState.FINISHED ∧
    (handleNext bank true s).progress.currentIndex = s.progress.currentIndex := by
  have hrep : repeatProgress bank true s = reinsertProgress s.progress q.id := by
    unfold repeatProgress
    rw [hq]
  have hins : reinsertProgress s.progress q.id =
      { s.progress with queue := s.progress.queue ++ [q.id] } := by
    unfold reinsertProgress
    rw [if_pos (by omega)]
  unfold handleNext
  rw [if_pos (by omega)]
  refine ⟨?_, ?_, rfl, ?_⟩
  · show (repeatProgress bank true s).queue = _
    rw [hrep, hins]
  · show (repeatProgress bank true s).queue.length = _
    rw [hrep, hins]
    simp
  · show (repeatProgress bank true s).currentIndex = _
    rw [hrep, reinsertProgress_currentIndex]

/-- C1 (witness): the amended theorem applied at queue `[1,2,3]`, cursor 2. -/
theorem advance_repeat_at_last_signals_completion_witness :
    currentQuestionOf sampleBank (sampleState [1, 2, 3] 2 "x") =
      some ⟨3, "ch3", "q3", "a3"⟩ ∧
    ((handleNext sampleBank true (sampleState [1, 2, 3] 2 "x")).progress.queue =
        (sampleState [1, 2, 3] 2 "x").progress.queue ++ [(3 : Nat)] ∧
      (handleNext sampleBank true (sampleState [1, 2, 3] 2 "x")).progress.queue.length =
        (sampleState [1, 2, 3] 2 "x").progress.queue.length + 1 ∧
      (handleNext sampleBank true (sampleState [1, 2, 3] 2 "x")).appState =
        AppState.FINISHED ∧
      (handleNext sampleBank true (sampleState [1, 2, 3] 2 "x")).progress.currentIndex =
        (sampleState [1, 2, 3] 2 "x").progress.currentIndex) :=
  ⟨by decide,
    advance_repeat_at_last_signals_completion sampleBank (sampleState [1, 2, 3] 2 "x")
      ⟨3, "ch3", "q3", "a3"⟩ (by decide) (by decide)⟩

/-- C2: in an in-session state whose cursor is strictly before the last
queue position, `advance(true)` captures the current question id before any
mutation, inserts the duplicate at `cursor + 4` when that index is within
the current queue bounds and appends it otherwise, grows the queue by
exactly 1, increments the cursor by 1, and stays in session (`QUIZ`). -/
theorem advance_repeat_mid_queue_inserts (bank : List Question) (s : AppModel) (q : Question)
    (hci : s.progress.currentIndex < s.progress.queue.length - 1)
    (hq : currentQuestionOf bank s = some q) :
    (handleNext bank true s).progress.queue =
      (if s.progress.currentIndex + 4 < s.progress.queue.length then
        s.progress.queue.take (s.progress.currentIndex + 4) ++
          q.id :: s.progress.queue.drop (s.progress.currentIndex + 4)
      else s.progress.queue ++ [q.id]) ∧
    (handleNext bank true s).progress.queue.length = s.progress.queue.length + 1 ∧
    (handleNext bank true s).progress.currentIndex = s.progress.currentIndex + 1 ∧
    (handleNext bank true s).appState = AppState.QUIZ := by
  have hrep : repeatProgress bank true s = reinsertProgress s.progress q.id := by
    unfold repeatProgress
    rw [hq]
  unfold handleNext
  rw [if_neg (by omega)]
  refine ⟨?_, ?_, ?_, rfl⟩
  · show (repeatProgress bank true s).queue = _
    rw [hrep]
    unfold reinsertProgress
    by_cases h4 : s.progress.currentIndex + 4 ≥ s.progress.queue.length
    · rw [if_pos h4, if_neg (by omega)]
    · rw [if_neg h4, if_pos (by omega)]
  · show (repeatProgress bank true s).queue.length = _
    rw [hrep, reinsertProgress_length]
  · show (repeatProgress bank true s).currentIndex + 1 = _
    rw [hrep, reinsertProgress_currentIndex]

/-- C2 (witness): bank `[1,2,3]`, queue `[1,2,3]`, cursor 0; the offset
target `0 + 4` is out of bounds for length 3, so the duplicate of id 1 is
appended: queue `[1,2,3,1]`, cursor 1, state `QUIZ`. -/
theorem advance_repeat_mid_queue_inserts_witness :
    (sampleState [1, 2, 3] 0 "x").progress.currentIndex <
      (sampleState [1, 2, 3] 0 "x").progress.queue.length - 1 ∧
    (handleNext sampleBank true (sampleState [1, 2, 3] 0 "x")).progress.queue = [1, 2, 3, 1] ∧
    ((handleNext sampleBank true (sampleState [1, 2, 3] 0 "x")).progress.currentIndex =
        (sampleState [1, 2, 3] 0 "x").progress.currentIndex + 1 ∧
      (handleNext sampleBank true (sampleState [1, 2, 3] 0 "x")).appState = AppState.QUIZ) :=
  ⟨by decide, by decide,
    (advance_repeat_mid_queue_inserts sampleBank (sampleState [1, 2, 3] 0 "x")
        ⟨1, "ch1", "q1", "a1"⟩ (by decide) (by decide)).2.2⟩

/-- C3 (counterexample): with an empty Question Bank and an API key present,
`startQuiz` surfaces no error at all and produces an active `QUIZ` session
over an empty queue, contradicting the claim that an empty bank fails with
a surfaced configuration error and never silently yields a degenerate
session. -/
theorem startQuiz_empty_bank_degenerate_cex :
    (startQuiz [] [] (initState [] true)).appState = AppState.QUIZ ∧
    (startQuiz [] [] (initState [] true)).progress.queue = [] ∧
    (startQuiz [] [] (initState [] true)).apiError = none ∧
    (startQuiz [] [] (initState [] true)).isKeySetupOpen = false := by
  decide

/-- C3 (amended): `startQuiz` performs no emptiness check on the Question
Bank; the only condition it recognizes is a missing API key, in which case
it opens the key-setup dialog and changes nothing else.  With a key present
it always starts a session (`QUIZ` screen, no error surfaced, key dialog
untouched), and on an empty bank this active session has an empty queue. -/
theorem startQuiz_key_guard_only (bank : List Question) (oracle : List Bool) (s : AppModel) :
    (s.hasApiKey = false → startQuiz bank oracle s = { s with isKeySetupOpen := true }) ∧
    (s.hasApiKey = true →
      (startQuiz bank oracle s).appState = AppState.QUIZ ∧
      (startQuiz bank oracle s).apiError = none ∧
      (startQuiz bank oracle s).isKeySetupOpen = s.isKeySetupOpen ∧
      (bank = [] → (startQuiz bank oracle s).progress.queue = [])) := by
  constructor
  · intro h
    unfold startQuiz
    rw [h]
    rfl
  · intro h
    unfold startQuiz
    rw [h]
    refine ⟨rfl, rfl, rfl, fun hb => ?_⟩
    rw [hb]
    rfl

/-- C3 (witness): both branches of the amended theorem at concrete inputs. -/
theorem startQuiz_key_guard_only_witness :
    (startQuiz [] [] (initState [] false) = { initState [] false with isKeySetupOpen := true }) ∧
    (startQuiz [] [] (initState [] true)).appState = AppState.QUIZ :=
  ⟨(startQuiz_key_guard_only [] [] (initState [] false)).1 rfl,
    ((startQuiz_key_guard_only [] [] (initState [] true)).2 rfl).1⟩

/-- C4: for every non-empty bank, any oracle of comparator outcomes of the
random shuffle, and any state with an API key available, `startQuiz`
produces a queue that is a permutation of the bank ids (same multiset,
length `N`) and resets cursor and both counters to 0. -/
theorem startQuiz_shuffle_perm_and_reset (bank : List Question) (oracle : List Bool)
    (s : AppModel) (hbank : bank ≠ []) (hkey : s.hasApiKey = true) :
    (startQuiz bank oracle s).progress.queue.Perm (bank.map Question.id) ∧
    (startQuiz bank oracle s).progress.queue.length = bank.length ∧
    (startQuiz bank oracle s).progress.currentIndex = 0 ∧
    (startQuiz bank oracle s).progress.correctCount = 0 ∧
    (startQuiz bank oracle s).progress.incorrectCount = 0 := by
  have hp := startQuiz_queue_perm bank oracle s hkey
  refine ⟨hp, ?_, ?_, ?_, ?_⟩
  · rw [hp.length_eq, List.length_map]
  · unfold startQuiz
    rw [hkey]
    rfl
  · unfold startQuiz
    rw [hkey]
    rfl
  · unfold startQuiz
    rw [hkey]
    rfl

/-- C4 (witness): the shuffle of `sampleBank` under the all-default oracle
yields `[3,2,1]`, a permutation of `[1,2,3]`, with all fields reset. -/
theorem startQuiz_shuffle_perm_and_reset_witness :
    sampleBank ≠ [] ∧
    (startQuiz sampleBank [] (initState sampleBank true)).progress.queue.Perm
      (sampleBank.map Question.id) ∧
    (startQuiz sampleBank [] (initState sampleBank true)).progress.currentIndex = 0 :=
  ⟨by decide,
    (startQuiz_shuffle_perm_and_reset sampleBank [] (initState sampleBank true)
        (by decide) (by decide)).1,
    (startQuiz_shuffle_perm_and_reset sampleBank [] (initState sampleBank true)
        (by decide) (by decide)).2.2.1⟩

/-- C5: starting at cursor 0 on a queue of length `L ≥ 1` in the quiz
screen, the first `L - 1` calls of `advance(false)` visit cursors
`0, 1, ..., L-1` in order (after `k < L` calls the cursor is exactly `k`
and the session is still in `QUIZ`), and the `L`-th call transitions to
`FINISHED` with the cursor left at `L - 1` and the queue untouched; so for
a bank of size 3 completion occurs on exactly the third advance call. -/
theorem advance_false_visits_all_then_completes (bank : List Question) (s : AppModel)
    (L k : Nat) (hL : s.progress.queue.length = L) (hL1 : 1 ≤ L)
    (h0 : s.progress.currentIndex = 0) (hQ : s.appState = AppState.QUIZ) (hk : k < L) :
    (advanceN bank k s).progress.currentIndex = k ∧
    (advanceN bank k s).appState = AppState.QUIZ ∧
    (advanceN bank L s).appState = AppState.FINISHED ∧
    (advanceN bank L s).progress.currentIndex = L - 1 ∧
    (advanceN bank L s).progress.queue = s.progress.queue := by
  have hin := advanceN_within bank s L hL h0 hQ
  obtain ⟨h1, h2, h3⟩ := hin k (by omega)
  obtain ⟨f1, f2, f3⟩ := hin (L - 1) (le_refl _)
  have hstep : advanceN bank L s = handleNext bank false (advanceN bank (L - 1) s) := by
    unfold advanceN
    conv_lhs => rw [show L = (L - 1) + 1 by omega]
    rw [Function.iterate_succ_apply']
  have hge : (advanceN bank (L - 1) s).progress.currentIndex ≥
      (advanceN bank (L - 1) s).progress.queue.length - 1 := by
    rw [f1, f2, hL]
  have hfin : advanceN bank L s =
      { advanceN bank (L - 1) s with
        appState := AppState.FINISHED
        progress := repeatProgress bank false (advanceN bank (L - 1) s) } := by
    rw [hstep]
    unfold handleNext
    rw [if_pos hge]
  refine ⟨h1, h3, ?_, ?_, ?_⟩
  · rw [hfin]
  · rw [hfin]
    show (advanceN bank (L - 1) s).progress.currentIndex = L - 1
    exact f1
  · rw [hfin]
    show (advanceN bank (L - 1) s).progress.queue = s.progress.queue
    exact f2

/-- C5 (witness): queue `[1,2,3]` (`L = 3`), checked after `k = 2` calls and
after the third, completing, call. -/
theorem advance_false_visits_all_then_completes_witness :
    (sampleState [1, 2, 3] 0 "").progress.queue.length = 3 ∧
    ((advanceN sampleBank 2 (sampleState [1, 2, 3] 0 "")).progress.currentIndex = 2 ∧
      (advanceN sampleBank 2 (sampleState [1, 2, 3] 0 "")).appState = AppState.QUIZ ∧
      (advanceN sampleBank 3 (sampleState [1, 2, 3] 0 "")).appState = AppState.FINISHED ∧
      (advanceN sampleBank 3 (sampleState [1, 2, 3] 0 "")).progress.currentIndex = 3 - 1 ∧
      (advanceN sampleBank 3 (sampleState [1, 2, 3] 0 "")).progress.queue =
        (sampleState [1, 2, 3] 0 "").progress.queue) :=
  ⟨by decide,
    advance_false_visits_all_then_completes sampleBank (sampleState [1, 2, 3] 0 "") 3 2
      (by decide) (by decide) (by decide) (by decide) (by decide)⟩

/-- C6: in every state reachable over a non-empty bank the cursor is
strictly inside the queue (so the current question id is addressable) and
the queue is at least as long as the bank; moreover an advance step only
ever extends the queue (the old queue is a sublist of the new one, nothing
is removed) and a submit step leaves the queue unchanged. -/
theorem reachable_cursor_in_bounds_queue_grows (bank : List Question) (key : Bool)
    (s : AppModel) (b : Bool) (o : EvalOutcome) (now : Nat)
    (hbank : bank ≠ []) (hs : Reachable bank key s) :
    s.progress.currentIndex < s.progress.queue.length ∧
    bank.length ≤ s.progress.queue.length ∧
    s.progress.queue.Sublist (handleNext bank b s).progress.queue ∧
    (handleSubmit bank o now s).progress.queue = s.progress.queue := by
  obtain ⟨h1, h2⟩ := reachable_cursor_lt bank key s hbank hs
  exact ⟨h1, h2, handleNext_sublist bank b s, handleSubmit_queue bank o now s⟩

/-- C6 (witness): the invariant at the initial state over `sampleBank`. -/
theorem reachable_cursor_in_bounds_queue_grows_witness :
    sampleBank ≠ [] ∧
    ((initState sampleBank true).progress.currentIndex <
        (initState sampleBank true).progress.queue.length ∧
      sampleBank.length ≤ (initState sampleBank true).progress.queue.length ∧
      (initState sampleBank true).progress.queue.Sublist
        (handleNext sampleBank true (initState sampleBank true)).progress.queue ∧
      (handleSubmit sampleBank (EvalOutcome.ok sampleResult) 0
          (initState sampleBank true)).progress.queue =
        (initState sampleBank true).progress.queue) :=
  ⟨by decide,
    reachable_cursor_in_bounds_queue_grows sampleBank true (initState sampleBank true) true
      (EvalOutcome.ok sampleResult) 0 (by decide) Reachable.init⟩

/-- C7: in every reachable state, every id in the queue is the id of some
bank question (the initial queue is built from bank ids, the shuffle only
permutes them and every reinsertion duplicates the id of a found bank
question); hence the current question id, whenever the cursor reads one,
resolves to a bank entry. -/
theorem reachable_queue_ids_from_bank (bank : List Question) (key : Bool) (s : AppModel)
    (qid : Nat) (hs : Reachable bank key s) :
    (∀ a ∈ s.progress.queue, a ∈ bank.map Question.id) ∧
    (s.progress.queue.get? s.progress.currentIndex = some qid →
      qid ∈ bank.map Question.id) := by
  have h := reachable_queue_ids bank key s hs
  exact ⟨h, fun hg => h qid (List.get?_mem hg)⟩

/-- C7 (witness): the invariant at the initial state over `sampleBank`,
with the current question id 1. -/
theorem reachable_queue_ids_from_bank_witness :
    (∀ a ∈ (initState sampleBank true).progress.queue, a ∈ sampleBank.map Question.id) ∧
    ((initState sampleBank true).progress.queue.get?
        (initState sampleBank true).progress.currentIndex = some 1 →
      1 ∈ sampleBank.map Question.id) :=
  reachable_queue_ids_from_bank sampleBank true (initState sampleBank true) 1 Reachable.init

/-- C8: along any event trace containing no session restart, the correct
counter grows by exactly the number of resolved successful submissions with
a correct verdict and the incorrect counter by exactly the number with an
incorrect verdict, whatever the interleaving with advance (and other)
events; and a resolved submission itself moves no cursor and performs no
queue mutation. -/
theorem record_outcome_counters (bank : List Question) (es : List Event) (s : AppModel)
    (r : EvaluationResult) (now : Nat)
    (h : ∀ e ∈ es, isStartEvent e = false) :
    (runEvents bank es s).progress.correctCount =
      s.progress.correctCount + countOutcomes bank true es s ∧
    (runEvents bank es s).progress.incorrectCount =
      s.progress.incorrectCount + countOutcomes bank false es s ∧
    (handleSubmit bank (EvalOutcome.ok r) now s).progress.currentIndex =
      s.progress.currentIndex ∧
    (handleSubmit bank (EvalOutcome.ok r) now s).progress.queue = s.progress.queue :=
  ⟨runEvents_correctCount bank es s h, runEvents_incorrectCount bank es s h,
    handleSubmit_currentIndex bank _ now s, handleSubmit_queue bank _ now s⟩

/-- C8 (witness): a trace with one effective correct submission interleaved
with typing and an advance, applied from an in-session state. -/
theorem record_outcome_counters_witness :
    (∀ e ∈ [Event.typeAnswer "a", Event.submit (EvalOutcome.ok sampleResult) 0,
        Event.next false], isStartEvent e = false) ∧
    ((runEvents sampleBank [Event.typeAnswer "a",
          Event.submit (EvalOutcome.ok sampleResult) 0, Event.next false]
          (sampleState [1, 2, 3] 0 "")).progress.correctCount =
        (sampleState [1, 2, 3] 0 "").progress.correctCount +
          countOutcomes sampleBank true [Event.typeAnswer "a",
            Event.submit (EvalOutcome.ok sampleResult) 0, Event.next false]
            (sampleState [1, 2, 3] 0 "") ∧
      (runEvents sampleBank [Event.typeAnswer "a",
          Event.submit (EvalOutcome.ok sampleResult) 0, Event.next false]
          (sampleState [1, 2, 3] 0 "")).progress.incorrectCount =
        (sampleState [1, 2, 3] 0 "").progress.incorrectCount +
          countOutcomes sampleBank false [Event.typeAnswer "a",
            Event.submit (EvalOutcome.ok sampleResult) 0, Event.next false]
            (sampleState [1, 2, 3] 0 "") ∧
      (handleSubmit sampleBank (EvalOutcome.ok sampleResult) 0
          (sampleState [1, 2, 3] 0 "")).progress.currentIndex =
        (sampleState [1, 2, 3] 0 "").progress.currentIndex ∧
      (handleSubmit sampleBank (EvalOutcome.ok sampleResult) 0
          (sampleState [1, 2, 3] 0 "")).progress.queue =
        (sampleState [1, 2, 3] 0 "").progress.queue) :=
  ⟨by decide,
    record_outcome_counters sampleBank
      [Event.typeAnswer "a", Event.submit (EvalOutcome.ok sampleResult) 0, Event.next false]
      (sampleState [1, 2, 3] 0 "") sampleResult 0 (by decide)⟩

/-- C9 (counterexample): a rejected evaluation whose message contains "401"
is classified as a key error and `handleApiError` then also opens the
key-setup dialog, so more than the transient error indicator and the
`isEvaluating` flag is affected, contradicting the "only" part of the
claim. -/
theorem submit_error_opens_key_setup_cex :
    (handleSubmit sampleBank (EvalOutcome.err "401") 0
        (sampleState [1, 2, 3] 0 "hi")).isKeySetupOpen = true ∧
    (sampleState [1, 2, 3] 0 "hi").isKeySetupOpen = false := by
  decide

/-- C9 (amended): if the evaluator call inside `handleSubmit` rejects, the
quiz progress (counters, cursor, queue), the attempt history, the screen
state, the last result and the typed answer are all left exactly as before
the call; only the transient error indicator, the `isEvaluating` flag and,
for errors classified as key errors, the key-setup dialog flag are
affected. -/
theorem submit_error_frame (bank : List Question) (msg : String) (now : Nat) (s : AppModel) :
    (handleSubmit bank (EvalOutcome.err msg) now s).progress = s.progress ∧
    (handleSubmit bank (EvalOutcome.err msg) now s).history = s.history ∧
    (handleSubmit bank (EvalOutcome.err msg) now s).appState = s.appState ∧
    (handleSubmit bank (EvalOutcome.err msg) now s).lastResult = s.lastResult ∧
    (handleSubmit bank (EvalOutcome.err msg) now s).userAnswer = s.userAnswer :=
  handleSubmit_err_frame bank msg now s

/-- C10: whenever the typed answer trims to the empty string, the submit
guard blocks the evaluator call and `handleSubmit` returns the state
completely unchanged: no attempt is appended, no counter or cursor or queue
changes, and the screen state is untouched. -/
theorem submit_blank_answer_noop (bank : List Question) (o : EvalOutcome) (now : Nat)
    (s : AppModel) (h : jsTrim s.userAnswer = []) :
    submitFires bank s = false ∧ handleSubmit bank o now s = s := by
  constructor
  · unfold submitFires
    simp [h]
  · unfold handleSubmit
    split
    · rfl
    · rw [if_pos h]

/-- C10 (witness): a whitespace-only answer in a live session. -/
theorem submit_blank_answer_noop_witness :
    jsTrim (sampleState [1, 2, 3] 0 "  \t ").userAnswer = [] ∧
    (submitFires sampleBank (sampleState [1, 2, 3] 0 "  \t ") = false ∧
      handleSubmit sampleBank (EvalOutcome.ok sampleResult) 0
          (sampleState [1, 2, 3] 0 "  \t ") =
        sampleState [1, 2, 3] 0 "  \t ") :=
  ⟨by decide,
    submit_blank_answer_noop sampleBank (EvalOutcome.ok sampleResult) 0
      (sampleState [1, 2, 3] 0 "  \t ") (by decide)⟩

end Prochaska
